import Mathlib

/-!
# SignalScout — the Trends page filter/sort pipeline

A shallow embedding of `frontend/src/pages/Trends.js` (the `filteredTrends`
expression, its search and topic predicates, its sort comparator, the "Viral
Content" and "Avg Virality" statistics, `getUniqueTopics` and
`getViralityColor`), of the request parameters built by `loadTrends` /
`getTrends` in `frontend/src/services/api.js`, and of the statistic cards and
the virality indicator dot of `frontend/src/pages/Dashboard.js`.

Modelling conventions.

* JavaScript strings are Lean `String`s; substring tests work on their character
  lists. `toLowerCase` is the Unicode default lower-casing, Final_Sigma rule
  included, over character tables `CaseTables` that are a parameter of the
  model; the general theorems hold for every table, sample evaluations use
  `basicTables`.
* A finite JavaScript number is modelled by the rational `ℚ` that is its exact
  value; the numeric fields of a record hold such values. Comparisons are exact;
  for finite operands the sign of the floating-point difference `b - a` is the
  sign of the exact difference, and the sort only looks at that sign. The sum
  and the quotient of the "Avg Virality" statistic are rounded to the nearest
  binary64 number, ties to even, as IEEE 754 arithmetic does (`roundDouble`);
  a score that is not itself a binary64 number is read there as the nearest one,
  as parsing its decimal form would give.
* `created_at` is modelled by the time value (milliseconds since the epoch) that
  `new Date(created_at)` yields for a valid date string.
* A property that may be `null`/`undefined` is an `Option`.
-/

namespace SignalScout

/-! ## Data model -/

/-- One trend record as delivered by `GET /trends` (the fields the page reads). -/
structure Trend where
  id : String
  platform : String
  title : String
  description : Option String
  topic_cluster : Option String
  score : ℚ
  engagement_rate : ℚ
  virality_score : ℚ
  created_at : ℤ
  deriving DecidableEq

/-- The `filters` state of the `Trends` component (`useState` at lines 20-24). -/
structure Filters where
  platform : String
  topic : String
  sortBy : String
  deriving DecidableEq

/-! ## Built-ins used by the page -/

/-- The Unicode character data that `String.prototype.toLowerCase` consults: the
lower-case mapping of a single character (one or more characters) and the
properties Cased and Case_Ignorable. -/
structure CaseTables where
  lowerOf : Char → List Char
  cased : Char → Bool
  caseIgnorable : Char → Bool

/-- GREEK CAPITAL LETTER SIGMA, U+03A3. -/
def capitalSigma : Char := Char.ofNat 0x3A3

/-- GREEK SMALL LETTER FINAL SIGMA, U+03C2. -/
def finalSigma : Char := Char.ofNat 0x3C2

/-- Walking away from a position, a cased letter is met after zero or more
case-ignorable characters. (An implementation that never counts a
case-ignorable character as cased is the instance of the tables whose `cased`
leaves those characters out.) -/
def casedAhead (T : CaseTables) : List Char → Bool
  | [] => false
  | c :: cs => T.cased c || (T.caseIgnorable c && casedAhead T cs)

/-- The condition Final_Sigma of the Unicode special casing: a cased letter
precedes (`before` lists the preceding characters, nearest first) and none
follows (`after` lists the following characters). -/
def isFinalSigma (T : CaseTables) (before after : List Char) : Bool :=
  casedAhead T before && !casedAhead T after

/-- Lower-casing of the characters of a string from some position on: `before`
are the characters already passed (nearest first), `after` the characters that
follow the ones being converted. A capital sigma in final position becomes the
final small sigma, every other character its table entry. -/
def lowerChars (T : CaseTables) : List Char → List Char → List Char → List Char
  | _, [], _ => []
  | before, c :: l, after =>
    (if c = capitalSigma ∧ isFinalSigma T before (l ++ after) = true then [finalSigma]
      else T.lowerOf c) ++ lowerChars T (c :: before) l after

/-- `String.prototype.toLowerCase`. -/
def toLowerCase (T : CaseTables) (s : String) : String := ⟨lowerChars T [] s.data []⟩

/-- Search loop of `String.prototype.includes` on character lists: try the
needle as a prefix at position 0, then at every later position. -/
def includesChars : List Char → List Char → Bool
  | [], t => t.isPrefixOf []
  | c :: s, t => t.isPrefixOf (c :: s) || includesChars s t

/-- `s.includes(t)`. -/
def includes (s t : String) : Bool := includesChars s.data t.data

/-- Insertion step of the stable sort: `x` (which preceded every element of the
list in the input) is placed before the first `y` with `cmp x y ≤ 0`. -/
def insertBy {α : Type} (cmp : α → α → ℚ) (x : α) : List α → List α
  | [] => [x]
  | y :: ys => if cmp x y ≤ 0 then x :: y :: ys else y :: insertBy cmp x ys

/-- `Array.prototype.sort(cmp)`: a stable sort by the comparator `cmp`
(negative: first argument first; positive: second argument first; zero: keep the
input order). -/
def arraySort {α : Type} (cmp : α → α → ℚ) : List α → List α
  | [] => []
  | x :: xs => insertBy cmp x (arraySort cmp xs)

/-! ## `Trends.js` -/

/-- `matchesSearch` (lines 81-82): the title test, or else the optional-chained
description test, which is `undefined` (falsy) when the description is absent. -/
def matchesSearch (T : CaseTables) (trend : Trend) (searchTerm : String) : Bool :=
  includes (toLowerCase T trend.title) (toLowerCase T searchTerm) ||
    (match trend.description with
     | none => false
     | some d => includes (toLowerCase T d) (toLowerCase T searchTerm))

/-- `matchesTopicFilter` (line 83). -/
def matchesTopicFilter (trend : Trend) (filters : Filters) : Bool :=
  filters.topic == "all" || trend.topic_cluster == some filters.topic

/-- The callback of `trends.filter` (lines 80-86). -/
def filterPredicate (T : CaseTables) (filters : Filters) (searchTerm : String)
    (trend : Trend) : Bool :=
  matchesSearch T trend searchTerm && matchesTopicFilter trend filters

/-- The comparator passed to `.sort` (lines 86-99). -/
def compareFn (filters : Filters) (a b : Trend) : ℚ :=
  if filters.sortBy = "virality_score" then b.virality_score - a.virality_score
  else if filters.sortBy = "engagement_rate" then b.engagement_rate - a.engagement_rate
  else if filters.sortBy = "score" then b.score - a.score
  else if filters.sortBy = "created_at" then ((b.created_at - a.created_at : ℤ) : ℚ)
  else 0

/-- `filteredTrends` (lines 80-99). -/
def filteredTrends (T : CaseTables) (trends : List Trend) (filters : Filters)
    (searchTerm : String) : List Trend :=
  arraySort (compareFn filters) (trends.filter (filterPredicate T filters searchTerm))

/-- The "Viral Content" statistic (line 335). -/
def viralContentCount (T : CaseTables) (trends : List Trend) (filters : Filters)
    (searchTerm : String) : ℕ :=
  ((filteredTrends T trends filters searchTerm).filter
    (fun t => decide (t.virality_score ≥ 70))).length

/-! ## Statistics and helpers of `Trends.js` -/

/-- A JavaScript number as far as the statistics need it: a finite value, `NaN`
or one of the infinities. -/
inductive JsNumber where
  | finite (q : ℚ)
  | nan
  | posInf
  | negInf
  deriving DecidableEq

/-- The integer nearest to `m`, the even one of the two when `m` lies half-way. -/
def roundHalfEven (m : ℚ) : ℤ :=
  if m - ⌊m⌋ < 1 / 2 then ⌊m⌋
  else if 1 / 2 < m - ⌊m⌋ then ⌊m⌋ + 1
  else if ⌊m⌋ % 2 = 0 then ⌊m⌋ else ⌊m⌋ + 1

/-- Rounding of an exact result to binary64, round to nearest, ties to even: 53
significant bits, least exponent `-1074`, overflow to an infinity from `2^1024`
on. -/
def roundDouble (x : ℚ) : JsNumber :=
  if x = 0 then JsNumber.finite 0
  else
    let q : ℤ := max (Int.log 2 |x| - 52) (-1074)
    let r : ℚ := (roundHalfEven (|x| / (2 : ℚ) ^ q) : ℚ) * (2 : ℚ) ^ q
    if (2 : ℚ) ^ (1024 : ℕ) ≤ r then (if 0 < x then JsNumber.posInf else JsNumber.negInf)
    else JsNumber.finite (if 0 < x then r else -r)

/-- The number a numeric field holds: the binary64 number nearest to its value
(the value itself when that is a binary64 number). -/
def numberOf (q : ℚ) : JsNumber := roundDouble q

/-- The sum `a + b` of two numbers. -/
def jsAdd : JsNumber → JsNumber → JsNumber
  | JsNumber.finite a, JsNumber.finite b => roundDouble (a + b)
  | JsNumber.finite _, JsNumber.posInf => JsNumber.posInf
  | JsNumber.finite _, JsNumber.negInf => JsNumber.negInf
  | JsNumber.posInf, JsNumber.finite _ => JsNumber.posInf
  | JsNumber.posInf, JsNumber.posInf => JsNumber.posInf
  | JsNumber.negInf, JsNumber.finite _ => JsNumber.negInf
  | JsNumber.negInf, JsNumber.negInf => JsNumber.negInf
  | JsNumber.posInf, JsNumber.negInf => JsNumber.nan
  | JsNumber.negInf, JsNumber.posInf => JsNumber.nan
  | JsNumber.nan, _ => JsNumber.nan
  | _, JsNumber.nan => JsNumber.nan

/-- The quotient `x / n` of a number by an array length: `0 / 0` is `NaN`, a
non-zero number over `0` is an infinity. -/
def jsDiv (x : JsNumber) (n : ℕ) : JsNumber :=
  match x with
  | JsNumber.finite a =>
    if n = 0 then (if a = 0 then JsNumber.nan else if 0 < a then JsNumber.posInf
      else JsNumber.negInf)
    else roundDouble (a / n)
  | JsNumber.nan => JsNumber.nan
  | JsNumber.posInf => JsNumber.posInf
  | JsNumber.negInf => JsNumber.negInf

/-- The expression `x || 0` on numbers: `NaN` and `0` are falsy. -/
def orZero : JsNumber → JsNumber
  | JsNumber.nan => JsNumber.finite 0
  | JsNumber.finite q => if q = 0 then JsNumber.finite 0 else JsNumber.finite q
  | JsNumber.posInf => JsNumber.posInf
  | JsNumber.negInf => JsNumber.negInf

/-- `Number.prototype.toFixed(1)` on a finite number below `10^21` in absolute
value: the nearest multiple of one tenth, ties away from zero, printed with one
decimal. -/
def toFixed1 (x : ℚ) : String :=
  let n : ℕ := (Rat.floor (|x| * 10 + 1 / 2)).toNat
  (if x < 0 then "-" else "") ++ Nat.repr (n / 10) ++ "." ++ Nat.repr (n % 10)

/-- `toFixed(1)` on any number. -/
def jsToFixed1 : JsNumber → String
  | JsNumber.finite q => toFixed1 q
  | JsNumber.nan => "NaN"
  | JsNumber.posInf => "Infinity"
  | JsNumber.negInf => "-Infinity"

/-- The "Avg Virality" statistic before `toFixed` (line 341):
`filteredTrends.reduce((sum, t) => sum + t.virality_score, 0) / filteredTrends.length || 0`. -/
def avgVirality (T : CaseTables) (trends : List Trend) (filters : Filters)
    (searchTerm : String) : JsNumber :=
  orZero (jsDiv
    ((filteredTrends T trends filters searchTerm).foldl
      (fun sum t => jsAdd sum (numberOf t.virality_score)) (JsNumber.finite 0))
    (filteredTrends T trends filters searchTerm).length)

/-- The text shown for "Avg Virality" (line 341). -/
def avgViralityText (T : CaseTables) (trends : List Trend) (filters : Filters)
    (searchTerm : String) : String :=
  jsToFixed1 (avgVirality T trends filters searchTerm)

/-- `new Set(iterable)` followed by spreading: the values in insertion order,
each value kept at its first occurrence only. -/
def newSet {α : Type} [DecidableEq α] (l : List α) : List α :=
  l.foldl (fun acc x => if x ∈ acc then acc else acc ++ [x]) []

/-- Truthiness of a `topic_cluster` value: neither missing nor the empty string. -/
def truthyTopic : Option String → Option String
  | none => none
  | some s => if s = "" then none else some s

/-- `getUniqueTopics` (lines 101-104). -/
def getUniqueTopics (trends : List Trend) : List String :=
  (newSet (trends.map (fun trend => trend.topic_cluster))).filterMap truthyTopic

/-- `getViralityColor` (lines 106-110). -/
def getViralityColor (score : ℚ) : String :=
  if score ≥ 80 then "text-green-600 bg-green-100"
  else if score ≥ 60 then "text-yellow-600 bg-yellow-100"
  else "text-gray-600 bg-gray-100"

/-- The figures of the statistics card (lines 326-351). -/
structure StatsCard where
  totalTrends : ℕ
  viralContent : ℕ
  avgVirality : String
  topics : ℕ
  deriving DecidableEq

/-- The statistics card, rendered only when `trends.length > 0` (line 326). -/
def statsCard (T : CaseTables) (trends : List Trend) (filters : Filters)
    (searchTerm : String) : Option StatsCard :=
  if trends.length > 0 then
    some { totalTrends := trends.length,
           viralContent := viralContentCount T trends filters searchTerm,
           avgVirality := avgViralityText T trends filters searchTerm,
           topics := (getUniqueTopics trends).length }
  else none

/-! ## `Dashboard.js` -/

/-- The analytics object held by the dashboard; every property may be missing. -/
structure Analytics where
  total_content : Option ℚ
  viral_content_count : Option ℚ
  avg_virality_score : Option ℚ
  platform_breakdown : Option (List (String × ℚ))
  deriving DecidableEq

/-- The expression `x || 0` on a possibly missing finite number. -/
def optOrZero : Option ℚ → ℚ
  | none => 0
  | some v => if v = 0 then 0 else v

/-- Value of the "Total Content Analyzed" card (line 133):
`analytics?.total_content || 0`. -/
def totalContentValue (analytics : Option Analytics) : ℚ :=
  optOrZero (analytics.bind (fun a => a.total_content))

/-- Value of the "Viral Content Found" card (line 140):
`analytics?.viral_content_count || 0`. -/
def viralContentValue (analytics : Option Analytics) : ℚ :=
  optOrZero (analytics.bind (fun a => a.viral_content_count))

/-- Value of the "Avg Virality Score" card (line 147):
`analytics?.avg_virality_score?.toFixed(1) || '0.0'`. -/
def avgViralityScoreValue (analytics : Option Analytics) : String :=
  match analytics.bind (fun a => a.avg_virality_score) with
  | none => "0.0"
  | some v => if toFixed1 v = "" then "0.0" else toFixed1 v

/-- Value of the "Active Platforms" card (line 154):
`Object.keys(analytics?.platform_breakdown || {}).length`. -/
def activePlatformsValue (analytics : Option Analytics) : ℕ :=
  match analytics.bind (fun a => a.platform_breakdown) with
  | none => 0
  | some breakdown => (breakdown.map Prod.fst).length

/-- Class of the virality indicator dot (lines 236-239). -/
def viralityDot (virality_score : ℚ) : String :=
  if virality_score > 80 then "bg-green-400"
  else if virality_score > 60 then "bg-yellow-400"
  else "bg-gray-400"

/-! ## `loadTrends` and `getTrends` -/

/-- The query parameters of `GET /trends` (`params` in `getTrends`). -/
structure TrendsParams where
  limit : ℕ
  platform : Option String
  deriving DecidableEq

/-- `getTrends(limit, platform)` (api.js lines 43-49): `params.platform` is set
only when `platform` is truthy, that is neither `null` nor the empty string. -/
def getTrendsParams (limit : ℕ) (platform : Option String) : TrendsParams :=
  match platform with
  | none => { limit := limit, platform := none }
  | some p => if p = "" then { limit := limit, platform := none }
              else { limit := limit, platform := some p }

/-- The request issued by `loadTrends` (Trends.js lines 35-36). -/
def loadTrendsRequest (filters : Filters) : TrendsParams :=
  getTrendsParams 100 (if filters.platform = "all" then none else some filters.platform)

/-! ## Specification-side notions -/

/-- The value of the selected sort key on a record (`0` for an unknown key, for
which the comparator is constantly `0`). -/
def sortKey (filters : Filters) (t : Trend) : ℚ :=
  if filters.sortBy = "virality_score" then t.virality_score
  else if filters.sortBy = "engagement_rate" then t.engagement_rate
  else if filters.sortBy = "score" then t.score
  else if filters.sortBy = "created_at" then (t.created_at : ℚ)
  else 0

/-- The string `t` occurs in `s` as a contiguous run of characters. -/
def IsSubstringOf (t s : String) : Prop := List.IsInfix t.data s.data

/-- White space and line terminators in the sense of ECMAScript. -/
def isWhiteSpace (c : Char) : Bool :=
  decide (c.toNat ∈ [9, 10, 11, 12, 13, 32, 160, 5760, 8232, 8233, 8239, 8287, 12288, 65279]) ||
    (decide (8192 ≤ c.toNat) && decide (c.toNat ≤ 8202))

/-- Removal of leading and trailing white space, as `String.prototype.trim`
does. The page never calls it; it serves to state the trimming the
specification describes. -/
def trim (s : String) : String :=
  ⟨((s.data.dropWhile isWhiteSpace).reverse.dropWhile isWhiteSpace).reverse⟩

/-- The rational `x` is a binary64 number: rounding leaves it unchanged. -/
def IsDouble (x : ℚ) : Prop := roundDouble x = JsNumber.finite x

/-- The three virality bands. -/
inductive Band where
  | green
  | yellow
  | gray
  deriving DecidableEq

/-- The band a class string of `getViralityColor` stands for. -/
def bandOfColor (cls : String) : Option Band :=
  if cls = "text-green-600 bg-green-100" then some Band.green
  else if cls = "text-yellow-600 bg-yellow-100" then some Band.yellow
  else if cls = "text-gray-600 bg-gray-100" then some Band.gray
  else none

/-- The band a class string of the dashboard dot stands for. -/
def bandOfDot (cls : String) : Option Band :=
  if cls = "bg-green-400" then some Band.green
  else if cls = "bg-yellow-400" then some Band.yellow
  else if cls = "bg-gray-400" then some Band.gray
  else none

/-- The position at which a value first occurs in a list (the length of the
list when it does not occur). -/
def firstIndex {α : Type} [DecidableEq α] (x : α) : List α → ℕ
  | [] => 0
  | y :: l => if y = x then 0 else firstIndex x l + 1

/-- The values of a list in order of first occurrence, each once. -/
def firstOccurrences {α : Type} [DecidableEq α] : List α → List α
  | [] => []
  | x :: l => x :: (firstOccurrences l).filter (fun y => decide (y ≠ x))

/-! ## Sample data -/

/-- The case tables restricted to Basic Latin, Latin-1 Supplement, the
combining diacritical marks and the Greek capital and small letters alpha to
omega, with LATIN CAPITAL LETTER I WITH DOT ABOVE as the one character that
lower-cases to two. On strings of these characters `toLowerCase basicTables` is
`String.prototype.toLowerCase`. -/
def basicTables : CaseTables where
  lowerOf c :=
    if (65 ≤ c.toNat ∧ c.toNat ≤ 90) ∨ (192 ≤ c.toNat ∧ c.toNat ≤ 222 ∧ c.toNat ≠ 215) ∨
        (913 ≤ c.toNat ∧ c.toNat ≤ 937 ∧ c.toNat ≠ 930) then [Char.ofNat (c.toNat + 32)]
    else if c.toNat = 304 then [Char.ofNat 105, Char.ofNat 775]
    else [c]
  cased c :=
    decide ((65 ≤ c.toNat ∧ c.toNat ≤ 90) ∨ (97 ≤ c.toNat ∧ c.toNat ≤ 122) ∨
      c.toNat = 170 ∨ c.toNat = 181 ∨ c.toNat = 186 ∨
      (192 ≤ c.toNat ∧ c.toNat ≤ 255 ∧ c.toNat ≠ 215 ∧ c.toNat ≠ 247) ∨ c.toNat = 304 ∨
      (913 ≤ c.toNat ∧ c.toNat ≤ 937 ∧ c.toNat ≠ 930) ∨ (945 ≤ c.toNat ∧ c.toNat ≤ 969))
  caseIgnorable c :=
    decide (c.toNat = 39 ∨ c.toNat = 46 ∨ c.toNat = 58 ∨ c.toNat = 94 ∨ c.toNat = 96 ∨
      c.toNat = 168 ∨ c.toNat = 173 ∨ c.toNat = 175 ∨ c.toNat = 180 ∨ c.toNat = 183 ∨
      c.toNat = 184 ∨ (768 ≤ c.toNat ∧ c.toNat ≤ 879))

/-- A record with the given id, title, platform, topic and virality score. -/
def sample (id title platform topic : String) (virality : ℚ) : Trend :=
  { id := id, platform := platform, title := title, description := none,
    topic_cluster := some topic, score := 1200, engagement_rate := 9 / 2,
    virality_score := virality, created_at := 1700000000000 }

def recA : Trend := sample "a" "Async Rust in production" "reddit" "technology" 60
def recB : Trend := sample "b" "Battery breakthrough" "youtube" "science" 85
def recC : Trend := sample "c" "Compiler tricks" "reddit" "technology" 85
def recD : Trend := sample "d" "Kubernetes" "youtube" "devops" 70
def recE : Trend := sample "e" "Edge caching" "youtube" "devops" (699 / 10)

/-- A record without a topic. -/
def recF : Trend := { recA with id := "f", topic_cluster := none }

/-- A record with the empty topic. -/
def recG : Trend := { recA with id := "g", topic_cluster := some "" }

/-- A record whose title is the Greek capital letters alpha, sigma. -/
def recH : Trend := sample "h" "ΑΣ" "reddit" "greek" 50

/-- A record scoring 0.1, that is the binary64 number nearest to one tenth. -/
def recTenth : Trend :=
  sample "t" "One tenth" "reddit" "numbers" (3602879701896397 / 36028797018963968)

/-- A record scoring 0.2, that is the binary64 number nearest to one fifth. -/
def recFifth : Trend :=
  sample "u" "One fifth" "reddit" "numbers" (3602879701896397 / 18014398509481984)

/-- The initial value of the `filters` state. -/
def defaultFilters : Filters := { platform := "all", topic := "all", sortBy := "virality_score" }

/-! ## The stable sort -/

section StableSort

variable {α : Type} (cmp : α → α → ℚ)

theorem insertBy_cons (x y : α) (ys : List α) :
    insertBy cmp x (y :: ys) =
      if cmp x y ≤ 0 then x :: y :: ys else y :: insertBy cmp x ys := rfl

theorem arraySort_cons (x : α) (xs : List α) :
    arraySort cmp (x :: xs) = insertBy cmp x (arraySort cmp xs) := rfl

theorem insertBy_perm (x : α) (l : List α) : (insertBy cmp x l).Perm (x :: l) := by
  induction l with
  | nil => exact List.Perm.refl _
  | cons y ys ih =>
    rw [insertBy_cons]
    split_ifs
    · exact List.Perm.refl _
    · exact (List.Perm.cons y ih).trans (List.Perm.swap x y ys)

theorem arraySort_perm (l : List α) : (arraySort cmp l).Perm l := by
  induction l with
  | nil => exact List.Perm.refl _
  | cons x xs ih =>
    rw [arraySort_cons]
    exact (insertBy_perm cmp x _).trans (List.Perm.cons x ih)

theorem insertBy_of_forall_le (x : α) (l : List α) (h : ∀ z ∈ l, cmp x z ≤ 0) :
    insertBy cmp x l = x :: l := by
  cases l with
  | nil => rfl
  | cons y ys =>
    rw [insertBy_cons]
    rw [if_pos (h y (List.mem_cons_self y ys))]

theorem arraySort_eq_self (l : List α) (h : l.Pairwise (fun a b => cmp a b ≤ 0)) :
    arraySort cmp l = l := by
  induction l with
  | nil => rfl
  | cons x xs ih =>
    rw [List.pairwise_cons] at h
    rw [arraySort_cons]
    rw [ih h.2]
    exact insertBy_of_forall_le cmp x xs h.1

variable {cmp} {key : α → ℚ} (hk : ∀ a b, cmp a b ≤ 0 ↔ key b ≤ key a)

include hk

theorem insertBy_pairwise (x : α) (l : List α)
    (h : l.Pairwise (fun a b => key b ≤ key a)) :
    (insertBy cmp x l).Pairwise (fun a b => key b ≤ key a) := by
  induction l with
  | nil => simp [insertBy]
  | cons y ys ih =>
    rw [List.pairwise_cons] at h
    rw [insertBy_cons]
    split_ifs with hxy
    · refine List.pairwise_cons.2 ⟨?_, List.pairwise_cons.2 h⟩
      intro z hz
      have hyx : key y ≤ key x := (hk x y).1 hxy
      rcases List.mem_cons.1 hz with rfl | hz
      · exact hyx
      · exact le_trans (h.1 z hz) hyx
    · refine List.pairwise_cons.2 ⟨?_, ih h.2⟩
      intro z hz
      rcases List.mem_cons.1 ((insertBy_perm cmp x ys).mem_iff.1 hz) with rfl | hz
      · exact le_of_lt (lt_of_not_ge (fun hge => hxy ((hk _ _).2 hge)))
      · exact h.1 z hz

theorem arraySort_pairwise (l : List α) :
    (arraySort cmp l).Pairwise (fun a b => key b ≤ key a) := by
  induction l with
  | nil => simp [arraySort]
  | cons x xs ih =>
    rw [arraySort_cons]
    exact insertBy_pairwise hk x _ ih

theorem filter_insertBy (p : α → Bool) (x : α) (l : List α)
    (h : l.Pairwise (fun a b => key b ≤ key a)) :
    (insertBy cmp x l).filter p =
      if p x = true then insertBy cmp x (l.filter p) else l.filter p := by
  induction l with
  | nil => by_cases hp : p x = true <;> simp [insertBy, hp]
  | cons y ys ih =>
    rw [List.pairwise_cons] at h
    rw [insertBy_cons]
    split_ifs with hxy hpx hpx
    · rw [List.filter_cons_of_pos hpx]
      rw [insertBy_of_forall_le]
      intro z hz
      have hzl : z ∈ y :: ys := (List.mem_filter.1 hz).1
      have hyx : key y ≤ key x := (hk x y).1 hxy
      rcases List.mem_cons.1 hzl with rfl | hzs
      · exact hxy
      · exact (hk _ _).2 (le_trans (h.1 z hzs) hyx)
    · rw [List.filter_cons_of_neg hpx]
    · by_cases hpy : p y = true
      · rw [List.filter_cons_of_pos hpy, List.filter_cons_of_pos hpy, ih h.2, if_pos hpx]
        rw [insertBy_cons, if_neg hxy]
      · rw [List.filter_cons_of_neg hpy, List.filter_cons_of_neg hpy, ih h.2, if_pos hpx]
    · by_cases hpy : p y = true
      · rw [List.filter_cons_of_pos hpy, List.filter_cons_of_pos hpy, ih h.2, if_neg hpx]
      · rw [List.filter_cons_of_neg hpy, List.filter_cons_of_neg hpy, ih h.2, if_neg hpx]

/-- Filtering commutes with the stable sort. -/
theorem arraySort_filter (p : α → Bool) (l : List α) :
    arraySort cmp (l.filter p) = (arraySort cmp l).filter p := by
  induction l with
  | nil => rfl
  | cons x xs ih =>
    rw [arraySort_cons, filter_insertBy hk p x _ (arraySort_pairwise hk xs)]
    by_cases hpx : p x = true
    · rw [List.filter_cons_of_pos hpx, if_pos hpx, ← ih, arraySort_cons]
    · rw [List.filter_cons_of_neg hpx, if_neg hpx, ← ih]

/-- Stability: the records carrying one key value keep their input order. -/
theorem arraySort_filter_key (k : ℚ) (l : List α) :
    (arraySort cmp l).filter (fun t => decide (key t = k)) =
      l.filter (fun t => decide (key t = k)) := by
  rw [← arraySort_filter hk]
  apply arraySort_eq_self
  rw [List.pairwise_iff_forall_sublist]
  intro a b hab
  have ha : a ∈ l.filter (fun t => decide (key t = k)) := hab.subset (by simp)
  have hb : b ∈ l.filter (fun t => decide (key t = k)) := hab.subset (by simp)
  have hka : key a = k := by simpa using (List.mem_filter.1 ha).2
  have hkb : key b = k := by simpa using (List.mem_filter.1 hb).2
  exact (hk a b).2 (by rw [hka, hkb])

/-- Stability, pairwise form. -/
theorem arraySort_pair_sublist (a b : α) (l : List α) (hab : key a = key b)
    (h : List.Sublist [a, b] l) : List.Sublist [a, b] (arraySort cmp l) := by
  have h1 : List.Sublist ([a, b].filter (fun t => decide (key t = key b)))
      (l.filter (fun t => decide (key t = key b))) := h.filter _
  have h2 : [a, b].filter (fun t => decide (key t = key b)) = [a, b] := by
    simp [hab]
  rw [h2, ← arraySort_filter_key hk] at h1
  exact h1.trans (List.filter_sublist _)

/-- Stability, converse pairwise form: a tie in the output was already in that
order in the input. -/
theorem arraySort_pair_sublist_rev (a b : α) (l : List α) (hab : key a = key b)
    (h : List.Sublist [a, b] (arraySort cmp l)) : List.Sublist [a, b] l := by
  have h1 : List.Sublist ([a, b].filter (fun t => decide (key t = key b)))
      ((arraySort cmp l).filter (fun t => decide (key t = key b))) := h.filter _
  have h2 : [a, b].filter (fun t => decide (key t = key b)) = [a, b] := by
    simp [hab]
  rw [h2, arraySort_filter_key hk] at h1
  exact h1.trans (List.filter_sublist _)

end StableSort

theorem compareFn_le_zero_iff (filters : Filters) (a b : Trend) :
    compareFn filters a b ≤ 0 ↔ sortKey filters b ≤ sortKey filters a := by
  unfold compareFn sortKey
  split_ifs <;> simp

/-! ## Strings -/

theorem includesChars_iff (s t : List Char) :
    includesChars s t = true ↔ List.IsInfix t s := by
  induction s with
  | nil => simp [includesChars]
  | cons c s ih =>
    rw [includesChars, Bool.or_eq_true, ih, List.infix_cons_iff, List.isPrefixOf_iff_prefix]

theorem includes_iff (s t : String) : includes s t = true ↔ IsSubstringOf t s :=
  includesChars_iff s.data t.data

theorem IsSubstringOf.trans {a b c : String} (h₁ : IsSubstringOf a b)
    (h₂ : IsSubstringOf b c) : IsSubstringOf a c :=
  List.IsInfix.trans h₁ h₂

theorem trim_isSubstringOf (s : String) : IsSubstringOf (trim s) s := by
  have h₁ : List.IsPrefix (List.rdropWhile isWhiteSpace (s.data.dropWhile isWhiteSpace))
      (s.data.dropWhile isWhiteSpace) := List.rdropWhile_prefix _ _
  exact List.IsInfix.trans h₁.isInfix (List.dropWhile_suffix isWhiteSpace).isInfix

/-- A string is its leading white space, its trimmed part and its trailing white
space. -/
theorem trim_decomposition (s : String) :
    ∃ ws₁ ws₂ : List Char, (∀ c ∈ ws₁, isWhiteSpace c = true) ∧
      (∀ c ∈ ws₂, isWhiteSpace c = true) ∧ s.data = ws₁ ++ ((trim s).data ++ ws₂) := by
  refine ⟨s.data.takeWhile isWhiteSpace,
    (((s.data.dropWhile isWhiteSpace).reverse).takeWhile isWhiteSpace).reverse, ?_, ?_, ?_⟩
  · intro c hc
    exact List.mem_takeWhile_imp hc
  · intro c hc
    exact List.mem_takeWhile_imp (List.mem_reverse.1 hc)
  · have h₁ : (trim s).data ++
        (((s.data.dropWhile isWhiteSpace).reverse).takeWhile isWhiteSpace).reverse =
        s.data.dropWhile isWhiteSpace := by
      show ((s.data.dropWhile isWhiteSpace).reverse.dropWhile isWhiteSpace).reverse ++ _ = _
      rw [← List.reverse_append, List.takeWhile_append_dropWhile, List.reverse_reverse]
    rw [h₁, List.takeWhile_append_dropWhile]

/-! ## Lower-casing -/

theorem toLowerCase_empty (T : CaseTables) : toLowerCase T "" = "" := rfl

theorem casedAhead_of_uncased (T : CaseTables) (q : List Char)
    (hq : ∀ c ∈ q, T.cased c = false) : casedAhead T q = false := by
  induction q with
  | nil => rfl
  | cons c q ih =>
    rw [casedAhead, hq c (List.mem_cons_self c q),
      ih (fun d hd => hq d (List.mem_cons_of_mem c hd))]
    simp

theorem casedAhead_append_of_uncased (T : CaseTables) (p q : List Char)
    (hq : ∀ c ∈ q, T.cased c = false) : casedAhead T (p ++ q) = casedAhead T p := by
  induction p with
  | nil => rw [List.nil_append, casedAhead_of_uncased T q hq]; rfl
  | cons c p ih => rw [List.cons_append, casedAhead, casedAhead, ih]

/-- The conversion depends on the surrounding characters only through the
question whether a cased letter is met across case-ignorable characters. -/
theorem lowerChars_congr (T : CaseTables) (l : List Char) :
    ∀ b b₁ a a₁ : List Char,
      (∀ p, casedAhead T (p ++ b) = casedAhead T (p ++ b₁)) →
      (∀ p, casedAhead T (p ++ a) = casedAhead T (p ++ a₁)) →
      lowerChars T b l a = lowerChars T b₁ l a₁ := by
  induction l with
  | nil => intro b b₁ a a₁ _ _; rfl
  | cons c l ih =>
    intro b b₁ a a₁ hb ha
    have h₁ : casedAhead T b = casedAhead T b₁ := hb []
    have h₂ : lowerChars T (c :: b) l a = lowerChars T (c :: b₁) l a₁ := by
      refine ih (c :: b) (c :: b₁) a a₁ ?_ ha
      intro p
      have := hb (p ++ [c])
      simpa [List.append_assoc] using this
    rw [lowerChars, lowerChars, isFinalSigma, isFinalSigma, h₁, ha l, h₂]

theorem lowerChars_append (T : CaseTables) (x y a : List Char) :
    ∀ b : List Char, lowerChars T b (x ++ y) a =
      lowerChars T b x (y ++ a) ++ lowerChars T (x.reverse ++ b) y a := by
  induction x with
  | nil => intro b; simp [lowerChars]
  | cons c x ih =>
    intro b
    rw [List.cons_append, lowerChars, lowerChars, ih (c :: b), List.append_assoc,
      List.append_assoc, List.reverse_cons, List.append_assoc, List.singleton_append]

/-- Lower-casing a string surrounded by uncased characters contains the
lower-casing of the string alone. -/
theorem lowerChars_surrounded (T : CaseTables) (ws₁ core ws₂ : List Char)
    (h₁ : ∀ c ∈ ws₁, T.cased c = false) (h₂ : ∀ c ∈ ws₂, T.cased c = false) :
    List.IsInfix (lowerChars T [] core []) (lowerChars T [] (ws₁ ++ (core ++ ws₂)) []) := by
  have hmid : lowerChars T (ws₁.reverse ++ []) core (ws₂ ++ []) = lowerChars T [] core [] := by
    apply lowerChars_congr
    · intro p
      rw [List.append_nil, List.append_nil]
      exact casedAhead_append_of_uncased T p _
        (fun c hc => h₁ c (List.mem_reverse.1 hc))
    · intro p
      rw [List.append_nil, List.append_nil]
      exact casedAhead_append_of_uncased T p _ h₂
  rw [lowerChars_append, lowerChars_append, hmid]
  exact ⟨_, _, List.append_assoc _ _ _⟩

/-- Trimming commutes with lower-casing as far as substrings go, as long as no
white-space character is cased. -/
theorem toLowerCase_trim (T : CaseTables)
    (hws : ∀ c, isWhiteSpace c = true → T.cased c = false) (s : String) :
    IsSubstringOf (toLowerCase T (trim s)) (toLowerCase T s) := by
  obtain ⟨ws₁, ws₂, h₁, h₂, hs⟩ := trim_decomposition s
  show List.IsInfix (lowerChars T [] (trim s).data []) (lowerChars T [] s.data [])
  rw [hs]
  exact lowerChars_surrounded T ws₁ _ ws₂ (fun c hc => hws c (h₁ c hc))
    (fun c hc => hws c (h₂ c hc))

/-- Without a capital sigma the conversion is characterwise. -/
theorem lowerChars_of_no_sigma (T : CaseTables) (l : List Char)
    (h : capitalSigma ∉ l) :
    ∀ b a : List Char, lowerChars T b l a = l.flatMap T.lowerOf := by
  induction l with
  | nil => intro b a; rfl
  | cons c l ih =>
    intro b a
    have hc : c ≠ capitalSigma := fun e => h (e ▸ List.mem_cons_self c l)
    have hl : capitalSigma ∉ l := fun hm => h (List.mem_cons_of_mem c hm)
    rw [lowerChars, ih hl, List.flatMap_cons, if_neg (fun hh => hc hh.1)]

theorem IsSubstringOf.toLowerCase_of_no_sigma (T : CaseTables) {t s : String}
    (h : IsSubstringOf t s) (hs : capitalSigma ∉ s.data) :
    IsSubstringOf (toLowerCase T t) (toLowerCase T s) := by
  have ht : capitalSigma ∉ t.data := fun hm => hs (h.subset hm)
  show List.IsInfix (lowerChars T [] t.data []) (lowerChars T [] s.data [])
  rw [lowerChars_of_no_sigma T _ ht, lowerChars_of_no_sigma T _ hs]
  obtain ⟨x, y, hxy⟩ := h
  refine ⟨x.flatMap T.lowerOf, y.flatMap T.lowerOf, ?_⟩
  rw [← hxy, List.flatMap_append, List.flatMap_append]

theorem matchesSearch_eq_true_iff (T : CaseTables) (t : Trend) (s : String) :
    matchesSearch T t s = true ↔
      IsSubstringOf (toLowerCase T s) (toLowerCase T t.title) ∨
        ∃ d, t.description = some d ∧ IsSubstringOf (toLowerCase T s) (toLowerCase T d) := by
  unfold matchesSearch
  cases hd : t.description with
  | none => simp [includes_iff]
  | some d => simp [includes_iff]

theorem matchesSearch_mono {T : CaseTables} {t : Trend} {s₁ s₂ : String}
    (h : IsSubstringOf (toLowerCase T s₁) (toLowerCase T s₂))
    (hm : matchesSearch T t s₂ = true) : matchesSearch T t s₁ = true := by
  rw [matchesSearch_eq_true_iff] at hm ⊢
  rcases hm with hm | ⟨d, hd, hm⟩
  · exact Or.inl (h.trans hm)
  · exact Or.inr ⟨d, hd, h.trans hm⟩

theorem matchesSearch_empty (T : CaseTables) (t : Trend) : matchesSearch T t "" = true := by
  rw [matchesSearch_eq_true_iff]
  exact Or.inl List.nil_infix

/-! ## The pipeline -/

theorem mem_filteredTrends (T : CaseTables) (trends : List Trend) (filters : Filters)
    (s : String) (t : Trend) :
    t ∈ filteredTrends T trends filters s ↔
      t ∈ trends ∧ matchesSearch T t s = true ∧ matchesTopicFilter t filters = true := by
  unfold filteredTrends
  rw [(arraySort_perm _ _).mem_iff, List.mem_filter]
  simp [filterPredicate]

theorem filteredTrends_pairwise (T : CaseTables) (trends : List Trend) (filters : Filters)
    (s : String) :
    (filteredTrends T trends filters s).Pairwise
      (fun a b => sortKey filters b ≤ sortKey filters a) :=
  arraySort_pairwise (compareFn_le_zero_iff filters) _

/-- With the empty search text and the topic filter `"all"` every record passes
the filter stage. -/
theorem filter_all (T : CaseTables) (trends : List Trend) (filters : Filters)
    (h : filters.topic = "all") :
    trends.filter (filterPredicate T filters "") = trends := by
  rw [List.filter_eq_self]
  intro t _
  simp [filterPredicate, matchesSearch_empty, matchesTopicFilter, h]

/-! ## Permutation and order (C1) -/

/-- C1: for every list of records, search text and topic filter, `filteredTrends`
is a permutation of exactly the records that pass the search and topic tests,
and for each of the four sort keys it is in non-increasing order of that key
(for `created_at`: the most recent timestamp first). -/
theorem filteredTrends_perm_sorted (T : CaseTables) (trends : List Trend)
    (filters : Filters) (searchTerm : String) :
    (filteredTrends T trends filters searchTerm).Perm
        (trends.filter
          (fun t => matchesSearch T t searchTerm && matchesTopicFilter t filters)) ∧
      (filters.sortBy = "virality_score" →
        (filteredTrends T trends filters searchTerm).Pairwise
          (fun a b => b.virality_score ≤ a.virality_score)) ∧
      (filters.sortBy = "engagement_rate" →
        (filteredTrends T trends filters searchTerm).Pairwise
          (fun a b => b.engagement_rate ≤ a.engagement_rate)) ∧
      (filters.sortBy = "score" →
        (filteredTrends T trends filters searchTerm).Pairwise
          (fun a b => b.score ≤ a.score)) ∧
      (filters.sortBy = "created_at" →
        (filteredTrends T trends filters searchTerm).Pairwise
          (fun a b => b.created_at ≤ a.created_at)) := by
  have hs := filteredTrends_pairwise T trends filters searchTerm
  refine ⟨arraySort_perm _ _, ?_, ?_, ?_, ?_⟩
  · intro h
    simpa [sortKey, h] using hs
  · intro h
    simpa [sortKey, h] using hs
  · intro h
    simpa [sortKey, h] using hs
  · intro h
    simpa [sortKey, h] using hs

/-- C1 at the sample records `c, a, b`, sorted by virality score. -/
theorem filteredTrends_perm_sorted_witness :
    (filteredTrends basicTables [recC, recA, recB] defaultFilters "").Perm
        ([recC, recA, recB].filter
          (fun t => matchesSearch basicTables t "" && matchesTopicFilter t defaultFilters)) ∧
      (filteredTrends basicTables [recC, recA, recB] defaultFilters "").Pairwise
        (fun a b => b.virality_score ≤ a.virality_score) :=
  ⟨(filteredTrends_perm_sorted basicTables [recC, recA, recB] defaultFilters "").1,
    (filteredTrends_perm_sorted basicTables [recC, recA, recB] defaultFilters "").2.1 rfl⟩

/-! ## Ties (C2) -/

/-- C2, refuted as stated: with the input order `c, a, b` (virality 85, 60, 85)
the two tied records come out as `c, b`, the larger id first. -/
theorem ties_not_broken_by_id :
    filteredTrends basicTables [recC, recA, recB] defaultFilters "" = [recC, recB, recA] ∧
      recC.virality_score = recB.virality_score ∧ recB.id < recC.id := by
  refine ⟨by decide!, rfl, ?_⟩
  rw [String.lt_iff_toList_lt]
  decide

/-- C2, amended: ties are settled by the input order, not by id. The records of
the result that are tied on the selected sort key are in ascending id order
exactly when the records passing the filters are so in the input; in the
scenario of the specification (virality 85, 60, 85 with ids b, a, c, in that
input order) the result is b, c, a. -/
theorem ties_follow_input_order (T : CaseTables) (trends : List Trend)
    (filters : Filters) (searchTerm : String) :
    ((filteredTrends T trends filters searchTerm).Pairwise
        (fun a b => sortKey filters a = sortKey filters b → a.id ≤ b.id) ↔
      (trends.filter (filterPredicate T filters searchTerm)).Pairwise
        (fun a b => sortKey filters a = sortKey filters b → a.id ≤ b.id)) ∧
      filteredTrends T [recB, recA, recC] defaultFilters "" = [recB, recC, recA] := by
  refine ⟨?_, ?_⟩
  · rw [List.pairwise_iff_forall_sublist, List.pairwise_iff_forall_sublist]
    constructor
    · intro h a b hab htie
      exact h (arraySort_pair_sublist (compareFn_le_zero_iff filters) a b _ htie hab) htie
    · intro h a b hab htie
      exact h (arraySort_pair_sublist_rev (compareFn_le_zero_iff filters) a b _ htie hab) htie
  · unfold filteredTrends
    rw [filter_all T _ _ rfl]
    simp [arraySort, insertBy, compareFn, recA, recB, recC, sample, defaultFilters]

/-! ## The search and topic stages (C3, C4) -/

/-- C3: a record passes the search stage if and only if the lower-cased search
text is a substring of the lower-cased title or of the lower-cased description
(this holds for every search text, so in particular for one without leading or
trailing white space); with the description absent it passes if and only if the
title matches; the empty search text keeps every record. -/
theorem matchesSearch_iff (T : CaseTables) (t : Trend) (searchTerm : String)
    (trends : List Trend) :
    (matchesSearch T t searchTerm = true ↔
        IsSubstringOf (toLowerCase T searchTerm) (toLowerCase T t.title) ∨
          ∃ d, t.description = some d ∧
            IsSubstringOf (toLowerCase T searchTerm) (toLowerCase T d)) ∧
      (matchesSearch T { t with description := none } searchTerm = true ↔
        IsSubstringOf (toLowerCase T searchTerm) (toLowerCase T t.title)) ∧
      trends.filter (fun r => matchesSearch T r "") = trends := by
  refine ⟨matchesSearch_eq_true_iff T t searchTerm, ?_, ?_⟩
  · rw [matchesSearch_eq_true_iff]
    simp
  · rw [List.filter_eq_self]
    intro r _
    exact matchesSearch_empty T r

/-- C4: a record passes the topic stage if and only if the topic filter is
`"all"` or is equal to the record's `topic_cluster`; string equality is exact,
so neither a difference of case nor surrounding white space is forgiven.
Together with the search stage this decides membership in `filteredTrends`. -/
theorem matchesTopicFilter_iff (T : CaseTables) (t : Trend) (filters : Filters)
    (searchTerm : String) (trends : List Trend) :
    (matchesTopicFilter t filters = true ↔
        filters.topic = "all" ∨ t.topic_cluster = some filters.topic) ∧
      (t ∈ filteredTrends T trends filters searchTerm ↔
        t ∈ trends ∧ matchesSearch T t searchTerm = true ∧
          (filters.topic = "all" ∨ t.topic_cluster = some filters.topic)) ∧
      matchesTopicFilter recA { defaultFilters with topic := "technology" } = true ∧
      matchesTopicFilter recA { defaultFilters with topic := "Technology" } = false ∧
      matchesTopicFilter recA { defaultFilters with topic := " technology" } = false := by
  have h : matchesTopicFilter t filters = true ↔
      filters.topic = "all" ∨ t.topic_cluster = some filters.topic := by
    simp [matchesTopicFilter]
  refine ⟨h, ?_, by decide, by decide, by decide⟩
  rw [mem_filteredTrends, h]

/-! ## The platform filter (C5) -/

/-- C5, refuted as stated: with the platform filter set to `"reddit"` a YouTube
record held by the page is still part of the view. -/
theorem platform_not_filtered :
    filteredTrends basicTables [recB] { defaultFilters with platform := "reddit" } "" =
        [recB] ∧
      recB.platform ≠ "reddit" :=
  ⟨by decide!, by decide⟩

/-- C5, amended: the pipeline never looks at the platform. `filteredTrends` is
the same for every value of the platform filter, a record is in the view exactly
when it is held by the page and passes the search and topic stages, and the
platform filter only shapes the request of `loadTrends`: no `platform`
parameter for `"all"` (or the empty string), the filter value otherwise. -/
theorem platform_filter_delegated (T : CaseTables) (trends : List Trend)
    (filters : Filters) (searchTerm p : String) (t : Trend) :
    filteredTrends T trends { filters with platform := p } searchTerm =
        filteredTrends T trends filters searchTerm ∧
      (t ∈ filteredTrends T trends filters searchTerm ↔
        t ∈ trends ∧ matchesSearch T t searchTerm = true ∧
          matchesTopicFilter t filters = true) ∧
      loadTrendsRequest filters =
        { limit := 100,
          platform := if filters.platform = "all" ∨ filters.platform = "" then none
                      else some filters.platform } := by
  refine ⟨rfl, mem_filteredTrends T trends filters searchTerm t, ?_⟩
  unfold loadTrendsRequest getTrendsParams
  by_cases h₁ : filters.platform = "all"
  · simp [h₁]
  · by_cases h₂ : filters.platform = ""
    · simp [h₂]
    · simp [h₁, h₂]

/-! ## Monotonicity (C6) -/

theorem compareFn_congr (f g : Filters) (h : f.sortBy = g.sortBy) :
    compareFn f = compareFn g := by
  funext a b
  simp [compareFn, h]

/-- The result for a narrower filter predicate is obtained from the result for a
wider one by filtering, provided both queries sort by the same key. -/
theorem filteredTrends_narrow (T : CaseTables) (trends : List Trend) (f g : Filters)
    (s₁ s₂ : String) (hsort : f.sortBy = g.sortBy)
    (hp : ∀ t, filterPredicate T f s₂ t = true → filterPredicate T g s₁ t = true) :
    filteredTrends T trends f s₂ =
      (filteredTrends T trends g s₁).filter (filterPredicate T f s₂) := by
  unfold filteredTrends
  rw [compareFn_congr f g hsort, ← arraySort_filter (compareFn_le_zero_iff g),
    List.filter_filter]
  congr 1
  apply List.filter_congr
  intro t _
  cases h : filterPredicate T f s₂ t with
  | false => rfl
  | true => rw [hp t h]; rfl

/-- C6, refuted as stated: the search text "Σ" is a substring of "ΑΣ", yet the
record titled "ΑΣ" is in the result for "ΑΣ" and not in the result for "Σ":
lower-casing turns the sigma of "ΑΣ" into the final sigma and the lone sigma
into the ordinary small sigma. -/
theorem narrowing_not_monotone :
    IsSubstringOf "Σ" "ΑΣ" ∧
      filteredTrends basicTables [recH] defaultFilters "ΑΣ" = [recH] ∧
      filteredTrends basicTables [recH] { defaultFilters with topic := "all" } "Σ" = [] :=
  ⟨⟨[Char.ofNat 0x391], [], rfl⟩, by decide!, by decide!⟩

/-- C6, amended: every record of the result is a record of the input, with no
greater multiplicity, and the result for search text `s₂` and any topic is
contained (as a sub-list, hence as a subset) in the result for search text `s₁`
and topic `"all"` whenever the lower-cased `s₁` is a substring of the lower-cased
`s₂`, which is the case when `s₁` is a substring of `s₂` and `s₂` has no capital
sigma; it is always contained in the result for the empty search text. -/
theorem filteredTrends_monotone (T : CaseTables) (trends : List Trend)
    (filters : Filters) (s₁ s₂ : String)
    (h : IsSubstringOf (toLowerCase T s₁) (toLowerCase T s₂) ∨
      (IsSubstringOf s₁ s₂ ∧ capitalSigma ∉ s₂.data)) :
    (filteredTrends T trends filters s₂).Subperm trends ∧
      (∀ t ∈ filteredTrends T trends filters s₂, t ∈ trends) ∧
      List.Sublist (filteredTrends T trends filters s₂)
        (filteredTrends T trends { filters with topic := "all" } s₁) ∧
      (∀ t ∈ filteredTrends T trends filters s₂,
        t ∈ filteredTrends T trends { filters with topic := "all" } s₁) ∧
      List.Sublist (filteredTrends T trends filters s₂)
        (filteredTrends T trends { filters with topic := "all" } "") := by
  have hlow : IsSubstringOf (toLowerCase T s₁) (toLowerCase T s₂) := by
    rcases h with h | ⟨h, hs⟩
    · exact h
    · exact h.toLowerCase_of_no_sigma T hs
  have hsub : (filteredTrends T trends filters s₂).Subperm trends :=
    (arraySort_perm _ _).subperm.trans (List.filter_sublist _).subperm
  have hnarrow : ∀ s : String, IsSubstringOf (toLowerCase T s) (toLowerCase T s₂) →
      List.Sublist (filteredTrends T trends filters s₂)
        (filteredTrends T trends { filters with topic := "all" } s) := by
    intro s hs
    rw [filteredTrends_narrow T trends filters { filters with topic := "all" } s s₂ rfl]
    · exact List.filter_sublist _
    · intro t ht
      simp only [filterPredicate, Bool.and_eq_true] at ht ⊢
      exact ⟨matchesSearch_mono hs ht.1, by simp [matchesTopicFilter]⟩
  exact ⟨hsub, fun t ht => hsub.subset ht, hnarrow s₁ hlow,
    fun t ht => (hnarrow s₁ hlow).subset ht, hnarrow "" List.nil_infix⟩

/-- C6, amended, at the sample records: adding the search text "rust" to the
empty search text. -/
theorem filteredTrends_monotone_witness :
    (IsSubstringOf "" "rust" ∧ capitalSigma ∉ "rust".data) ∧
      ((filteredTrends basicTables [recC, recA, recB] defaultFilters "rust").Subperm
          [recC, recA, recB] ∧
        List.Sublist (filteredTrends basicTables [recC, recA, recB] defaultFilters "rust")
          (filteredTrends basicTables [recC, recA, recB]
            { defaultFilters with topic := "all" } "") ∧
        filteredTrends basicTables [recC, recA, recB] defaultFilters "rust" = [recA]) :=
  have h : IsSubstringOf "" "rust" ∧ capitalSigma ∉ "rust".data :=
    ⟨List.nil_infix, by decide⟩
  ⟨h,
    (filteredTrends_monotone basicTables [recC, recA, recB] defaultFilters "" "rust"
      (Or.inr h)).1,
    (filteredTrends_monotone basicTables [recC, recA, recB] defaultFilters "" "rust"
      (Or.inr h)).2.2.1,
    by decide!⟩

/-! ## Unknown sort keys (C7) -/

/-- C7, refuted as stated: the unknown sort key `"popularity"` is not rejected;
the page shows the records that pass the filters, in input order. -/
theorem unknown_sortKey_not_rejected :
    filteredTrends basicTables [recA, recB, recC]
        { defaultFilters with sortBy := "popularity" } "" =
      [recA, recB, recC] := by
  decide!

/-- C7, amended: for a sort key that is none of the four known ones the
comparator returns 0 throughout, no error is raised, and the result is the list
of the records that pass the search and topic stages, in input order. -/
theorem unknown_sortKey_keeps_input_order (T : CaseTables) (trends : List Trend)
    (filters : Filters) (searchTerm : String)
    (hkey : filters.sortBy ∉ ["virality_score", "engagement_rate", "score", "created_at"]) :
    (∀ a b, compareFn filters a b = 0) ∧
      filteredTrends T trends filters searchTerm =
        trends.filter
          (fun t => matchesSearch T t searchTerm && matchesTopicFilter t filters) := by
  simp only [List.mem_cons, List.mem_singleton, List.not_mem_nil, or_false, not_or] at hkey
  obtain ⟨h₁, h₂, h₃, h₄⟩ := hkey
  have hz : ∀ a b, compareFn filters a b = 0 := by
    intro a b
    simp [compareFn, h₁, h₂, h₃, h₄]
  refine ⟨hz, ?_⟩
  unfold filteredTrends
  apply arraySort_eq_self
  rw [List.pairwise_iff_forall_sublist]
  intro a b _
  rw [hz a b]

/-- C7, amended, at the sort key `"popularity"`. -/
theorem unknown_sortKey_keeps_input_order_witness :
    (∀ a b, compareFn { defaultFilters with sortBy := "popularity" } a b = 0) ∧
      filteredTrends basicTables [recA, recB, recC]
          { defaultFilters with sortBy := "popularity" } "b" =
        [recA, recB, recC].filter
          (fun t => matchesSearch basicTables t "b" &&
            matchesTopicFilter t { defaultFilters with sortBy := "popularity" }) :=
  unknown_sortKey_keeps_input_order basicTables [recA, recB, recC]
    { defaultFilters with sortBy := "popularity" } "b" (by decide)

/-! ## Trimming (C8) -/

theorem basicTables_whiteSpace_uncased :
    ∀ c, isWhiteSpace c = true → basicTables.cased c = false := by
  intro c h
  simp only [isWhiteSpace, Bool.or_eq_true, Bool.and_eq_true, decide_eq_true_eq,
    List.mem_cons, List.mem_singleton, List.not_mem_nil, or_false] at h
  simp only [basicTables, decide_eq_false_iff_not]
  omega

/-- C8, refuted as stated: a leading blank in the search text changes the
result, and a search text of blanks only does not keep every record. -/
theorem searchTerm_not_trimmed :
    filteredTrends basicTables [recD] defaultFilters " kubernetes" = [] ∧
      filteredTrends basicTables [recD] defaultFilters (trim " kubernetes") = [recD] ∧
      filteredTrends basicTables [recD] defaultFilters "  " = [] ∧
      filteredTrends basicTables [recD] defaultFilters "" = [recD] :=
  ⟨by decide!, by decide!, by decide!, by decide!⟩

/-- C8, amended: the search text is lower-cased but not trimmed, so its white
space has to occur in the title or description like any other character. The
result for a search text `s` consists of exactly those records of the result for
the trimmed `s` that match `s` as typed, in the same order: surrounding white
space can remove records but never adds or reorders any. The empty search text
keeps every record that passes the topic stage. (The case tables are arbitrary
but for the fact that no white-space character is a cased letter.) -/
theorem searchTerm_whitespace_narrows (T : CaseTables)
    (hws : ∀ c, isWhiteSpace c = true → T.cased c = false) (trends : List Trend)
    (filters : Filters) (s : String) :
    filteredTrends T trends filters s =
        (filteredTrends T trends filters (trim s)).filter (fun t => matchesSearch T t s) ∧
      (filteredTrends T trends filters "").Perm
        (trends.filter (fun t => matchesTopicFilter t filters)) := by
  constructor
  · rw [filteredTrends_narrow T trends filters filters (trim s) s rfl]
    · apply List.filter_congr
      intro t ht
      have hm := ((mem_filteredTrends T trends filters (trim s) t).1 ht).2.2
      simp [filterPredicate, hm]
    · intro t ht
      simp only [filterPredicate, Bool.and_eq_true] at ht ⊢
      exact ⟨matchesSearch_mono (toLowerCase_trim T hws s) ht.1, ht.2⟩
  · have hf : trends.filter (filterPredicate T filters "") =
        trends.filter (fun t => matchesTopicFilter t filters) := by
      apply List.filter_congr
      intro t _
      simp [filterPredicate, matchesSearch_empty]
    unfold filteredTrends
    rw [hf]
    exact arraySort_perm _ _

/-- C8, amended, at the search text " rust " over the sample records. -/
theorem searchTerm_whitespace_narrows_witness :
    (∀ c, isWhiteSpace c = true → basicTables.cased c = false) ∧
      filteredTrends basicTables [recC, recA, recB] defaultFilters " rust " =
        (filteredTrends basicTables [recC, recA, recB] defaultFilters (trim " rust ")).filter
          (fun t => matchesSearch basicTables t " rust ") ∧
      filteredTrends basicTables [recC, recA, recB] defaultFilters " rust " = [recA] ∧
      filteredTrends basicTables [recC, recA, recB] defaultFilters " rust  " = [] :=
  ⟨basicTables_whiteSpace_uncased,
    (searchTerm_whitespace_narrows basicTables basicTables_whiteSpace_uncased
      [recC, recA, recB] defaultFilters " rust ").1,
    by decide!, by decide!⟩

/-! ## Stability (C9) -/

/-- C9: the filter stage keeps the input order (its output is a sub-list of the
input), and the sort is stable: two records that pass the filters, have equal
values of the selected sort key and occur in the input as `a` before `b`, occur
in the result as `a` before `b`. -/
theorem filteredTrends_stable (T : CaseTables) (trends : List Trend) (filters : Filters)
    (searchTerm : String) (a b : Trend) (hab : List.Sublist [a, b] trends)
    (ha : filterPredicate T filters searchTerm a = true)
    (hb : filterPredicate T filters searchTerm b = true)
    (htie : sortKey filters a = sortKey filters b) :
    List.Sublist (trends.filter (filterPredicate T filters searchTerm)) trends ∧
      List.Sublist [a, b] (filteredTrends T trends filters searchTerm) := by
  refine ⟨List.filter_sublist _, ?_⟩
  have h := hab.filter (filterPredicate T filters searchTerm)
  have hfl : [a, b].filter (filterPredicate T filters searchTerm) = [a, b] := by
    simp [ha, hb]
  rw [hfl] at h
  exact arraySort_pair_sublist (compareFn_le_zero_iff filters) a b _ htie h

/-- C9 at the sample records `c, a, b`: `c` and `b` are tied at virality 85 and
`c` stays before `b`. -/
theorem filteredTrends_stable_witness :
    List.Sublist [recC, recB] [recC, recA, recB] ∧
      filterPredicate basicTables defaultFilters "" recC = true ∧
      filterPredicate basicTables defaultFilters "" recB = true ∧
      sortKey defaultFilters recC = sortKey defaultFilters recB ∧
      List.Sublist ([recC, recA, recB].filter (filterPredicate basicTables defaultFilters ""))
        [recC, recA, recB] ∧
      List.Sublist [recC, recB]
        (filteredTrends basicTables [recC, recA, recB] defaultFilters "") :=
  have hab : List.Sublist [recC, recB] [recC, recA, recB] :=
    List.Sublist.cons₂ _ (List.Sublist.cons _ (List.Sublist.refl _))
  ⟨hab, by decide, by decide, rfl,
    filteredTrends_stable basicTables [recC, recA, recB] defaultFilters "" recC recB hab
      (by decide) (by decide) rfl⟩

/-! ## The "Viral Content" statistic (C10) -/

theorem viralCount_as_filter_length (T : CaseTables) (l : List Trend) (filters : Filters)
    (searchTerm : String) :
    viralContentCount T l filters searchTerm =
      (l.filter (fun r => filterPredicate T filters searchTerm r &&
        decide (70 ≤ r.virality_score))).length := by
  unfold viralContentCount filteredTrends
  rw [← List.countP_eq_length_filter, (arraySort_perm _ _).countP_eq,
    List.countP_eq_length_filter, List.filter_filter]
  congr 1
  apply List.filter_congr
  intro r _
  simp [Bool.and_comm]

/-- C10: the "Viral Content" figure is the number of records of the summarised
set (`filteredTrends`) whose virality score is at least 70; equivalently the
number of records held by the page that pass the filters and score at least 70.
A further record changes it by one exactly when it passes the filters and scores
at least 70: a score of exactly 70 counts, a score of 69.9 does not. -/
theorem viralContentCount_eq (T : CaseTables) (trends : List Trend) (filters : Filters)
    (searchTerm : String) (t : Trend) :
    viralContentCount T trends filters searchTerm =
        (filteredTrends T trends filters searchTerm).countP
          (fun r => decide (70 ≤ r.virality_score)) ∧
      viralContentCount T trends filters searchTerm =
        (trends.filter (fun r => filterPredicate T filters searchTerm r &&
          decide (70 ≤ r.virality_score))).length ∧
      viralContentCount T (t :: trends) filters searchTerm =
        viralContentCount T trends filters searchTerm +
          (if filterPredicate T filters searchTerm t = true ∧ 70 ≤ t.virality_score
            then 1 else 0) ∧
      viralContentCount T [recD] defaultFilters "" = 1 ∧
      viralContentCount T [recE] defaultFilters "" = 0 := by
  refine ⟨?_, viralCount_as_filter_length T trends filters searchTerm, ?_, ?_, ?_⟩
  · unfold viralContentCount
    rw [List.countP_eq_length_filter]
  · rw [viralCount_as_filter_length, viralCount_as_filter_length]
    by_cases hp : filterPredicate T filters searchTerm t = true
    · by_cases hv : 70 ≤ t.virality_score
      · simp [List.filter_cons, hp, hv]
      · simp [List.filter_cons, hp, hv]
    · simp [List.filter_cons, hp]
  · rw [viralCount_as_filter_length]
    simp [filterPredicate, matchesSearch_empty, matchesTopicFilter, recD, sample,
      defaultFilters]
  · rw [viralCount_as_filter_length]
    simp [filterPredicate, matchesSearch_empty, matchesTopicFilter, recE, sample,
      defaultFilters]
    norm_num

/-! ## The "Avg Virality" statistic (C11, C12) -/

theorem orZero_finite (q : ℚ) : orZero (JsNumber.finite q) = JsNumber.finite q := by
  by_cases h : q = 0 <;> simp [orZero, h]

theorem orZero_ne_nan (x : JsNumber) : orZero x ≠ JsNumber.nan := by
  cases x with
  | finite q => rw [orZero_finite]; exact JsNumber.noConfusion
  | nan => exact JsNumber.noConfusion
  | posInf => exact JsNumber.noConfusion
  | negInf => exact JsNumber.noConfusion

/-- When every score and every partial sum is a binary64 number, the running
sum of the page is the exact sum. -/
theorem foldl_jsAdd_exact (l : List Trend) :
    ∀ init : ℚ,
      (∀ t ∈ l, IsDouble t.virality_score) →
      (∀ k, IsDouble (init + ((l.take k).map (fun t => t.virality_score)).sum)) →
      l.foldl (fun sum t => jsAdd sum (numberOf t.virality_score))
          (JsNumber.finite init) =
        JsNumber.finite (init + (l.map (fun t => t.virality_score)).sum) := by
  induction l with
  | nil => intro init _ _; simp
  | cons x l ih =>
    intro init hs h
    have h₀ : numberOf x.virality_score = JsNumber.finite x.virality_score :=
      hs x (List.mem_cons_self x l)
    have h₁ : roundDouble (init + x.virality_score) =
        JsNumber.finite (init + x.virality_score) := by
      have := h 1
      simpa [IsDouble] using this
    have h₂ : ∀ k, IsDouble (init + x.virality_score +
        ((l.take k).map (fun t => t.virality_score)).sum) := by
      intro k
      have := h (k + 1)
      simpa [add_assoc] using this
    rw [List.foldl_cons, h₀, jsAdd, h₁,
      ih _ (fun t ht => hs t (List.mem_cons_of_mem x ht)) h₂, List.map_cons,
      List.sum_cons, add_assoc]

theorem avgVirality_of_nil (T : CaseTables) (trends : List Trend) (filters : Filters)
    (searchTerm : String) (h : filteredTrends T trends filters searchTerm = []) :
    avgVirality T trends filters searchTerm = JsNumber.finite 0 := by
  unfold avgVirality
  rw [h]
  simp [jsDiv, orZero]

theorem avgVirality_ne_nan (T : CaseTables) (trends : List Trend) (filters : Filters)
    (searchTerm : String) : avgVirality T trends filters searchTerm ≠ JsNumber.nan :=
  orZero_ne_nan _

theorem toFixed1_zero : toFixed1 0 = "0.0" := by
  decide!

/-- C11, refuted as stated: for two records scoring 0.1 and 0.2 the page computes
0.15000000000000002 (the sum is rounded to 0.30000000000000004 before it is
halved), which is not the arithmetic mean of the two scores. -/
theorem avgVirality_not_exact_mean :
    filteredTrends basicTables [recTenth, recFifth] defaultFilters "" =
        [recFifth, recTenth] ∧
      avgVirality basicTables [recTenth, recFifth] defaultFilters "" =
        JsNumber.finite (1351079888211149 / 9007199254740992) ∧
      (recTenth.virality_score + recFifth.virality_score) / 2 =
        10808639105689191 / 72057594037927936 ∧
      avgVirality basicTables [recTenth, recFifth] defaultFilters "" ≠
        JsNumber.finite ((recTenth.virality_score + recFifth.virality_score) / 2) :=
  ⟨by decide!, by decide!, by decide!, by decide!⟩

/-- C11, amended: for a non-empty summarised set whose scores are binary64
numbers, the average virality computed by the page, before `toFixed(1)`, is the
arithmetic mean of the scores, their sum divided by their count, whenever every
partial sum of the scores, taken in the order of `filteredTrends`, and the
quotient are binary64 numbers, so that no addition and no division rounds. -/
theorem avgVirality_eq_mean (T : CaseTables) (trends : List Trend) (filters : Filters)
    (searchTerm : String) (h : filteredTrends T trends filters searchTerm ≠ [])
    (hscores : ∀ t ∈ filteredTrends T trends filters searchTerm, IsDouble t.virality_score)
    (hsum : ∀ k, IsDouble
      ((((filteredTrends T trends filters searchTerm).take k).map
        (fun t => t.virality_score)).sum))
    (hquot : IsDouble
      (((filteredTrends T trends filters searchTerm).map (fun t => t.virality_score)).sum /
        (filteredTrends T trends filters searchTerm).length)) :
    avgVirality T trends filters searchTerm =
      JsNumber.finite
        (((filteredTrends T trends filters searchTerm).map (fun t => t.virality_score)).sum /
          (filteredTrends T trends filters searchTerm).length) := by
  have hlen : (filteredTrends T trends filters searchTerm).length ≠ 0 := by
    intro h0
    exact h (List.length_eq_zero.1 h0)
  have hfold := foldl_jsAdd_exact (filteredTrends T trends filters searchTerm) 0 hscores
    (by intro k; simpa using hsum k)
  rw [zero_add] at hfold
  unfold avgVirality
  rw [hfold, jsDiv, if_neg hlen]
  unfold IsDouble at hquot
  rw [hquot, orZero_finite]

/-- C11, amended, at the sample records `a` (60) and `b` (85): the partial sums
0, 85, 145 and the quotient 72.5 are binary64 numbers and the mean is 72.5. -/
theorem avgVirality_eq_mean_witness :
    filteredTrends basicTables [recA, recB] defaultFilters "" = [recB, recA] ∧
      IsDouble 60 ∧ IsDouble 85 ∧ IsDouble 145 ∧ IsDouble (145 / 2) ∧
      avgVirality basicTables [recA, recB] defaultFilters "" = JsNumber.finite (145 / 2) := by
  have hft : filteredTrends basicTables [recA, recB] defaultFilters "" = [recB, recA] := by
    decide!
  have h0 : IsDouble 0 := by unfold IsDouble; decide!
  have h85 : IsDouble 85 := by unfold IsDouble; decide!
  have h145 : IsDouble 145 := by unfold IsDouble; decide!
  have hq : IsDouble (145 / 2) := by unfold IsDouble; decide!
  have h60 : IsDouble 60 := by unfold IsDouble; decide!
  have hne : filteredTrends basicTables [recA, recB] defaultFilters "" ≠ [] := by
    rw [hft]
    exact List.cons_ne_nil _ _
  have hscores : ∀ t ∈ filteredTrends basicTables [recA, recB] defaultFilters "",
      IsDouble t.virality_score := by
    intro t ht
    rw [hft] at ht
    rcases List.mem_cons.1 ht with rfl | ht
    · exact h85
    · rcases List.mem_cons.1 ht with rfl | ht
      · exact h60
      · exact absurd ht (List.not_mem_nil _)
  have hsum : ∀ k, IsDouble
      ((((filteredTrends basicTables [recA, recB] defaultFilters "").take k).map
        (fun t => t.virality_score)).sum) := by
    intro k
    rw [hft]
    rcases k with _ | _ | k
    · simpa using h0
    · simpa [recB, sample] using h85
    · have e : (([recB, recA].take (k + 1 + 1)).map (fun t => t.virality_score)).sum =
          145 := by
        simp [recA, recB, sample]
        norm_num
      rw [e]
      exact h145
  have hquot : IsDouble
      (((filteredTrends basicTables [recA, recB] defaultFilters "").map
        (fun t => t.virality_score)).sum /
        (filteredTrends basicTables [recA, recB] defaultFilters "").length) := by
    rw [hft]
    have e : (([recB, recA].map (fun t => t.virality_score)).sum /
        ([recB, recA].length : ℚ)) = 145 / 2 := by
      simp [recA, recB, sample]
      norm_num
    rw [e]
    exact hq
  have hmain := avgVirality_eq_mean basicTables [recA, recB] defaultFilters "" hne hscores
    hsum hquot
  refine ⟨hft, h60, h85, h145, hq, ?_⟩
  rw [hmain, hft]
  simp [recA, recB, sample]
  norm_num

/-- C12: when the summarised set `filteredTrends` is empty, the viral-content
count is 0 and the average virality is 0, shown as "0.0"; the average is never
`NaN`, whatever the records; no statistics card is computed when the page holds
no record; and with no analytics (or an analytics object without properties) the
dashboard shows total content 0, viral content 0, average virality "0.0" and
0 active platforms. -/
theorem summary_of_empty (T : CaseTables) (trends : List Trend) (filters : Filters)
    (searchTerm : String) (h : filteredTrends T trends filters searchTerm = []) :
    viralContentCount T trends filters searchTerm = 0 ∧
      avgVirality T trends filters searchTerm = JsNumber.finite 0 ∧
      avgViralityText T trends filters searchTerm = "0.0" ∧
      (∀ ts f q, avgVirality T ts f q ≠ JsNumber.nan) ∧
      statsCard T [] filters searchTerm = none ∧
      (totalContentValue none = 0 ∧ viralContentValue none = 0 ∧
        avgViralityScoreValue none = "0.0" ∧ activePlatformsValue none = 0) ∧
      (totalContentValue (some ⟨none, none, none, none⟩) = 0 ∧
        viralContentValue (some ⟨none, none, none, none⟩) = 0 ∧
        avgViralityScoreValue (some ⟨none, none, none, none⟩) = "0.0" ∧
        activePlatformsValue (some ⟨none, none, none, none⟩) = 0) := by
  have havg := avgVirality_of_nil T trends filters searchTerm h
  refine ⟨?_, havg, ?_, avgVirality_ne_nan T, rfl, ⟨rfl, rfl, rfl, rfl⟩,
    ⟨rfl, rfl, rfl, rfl⟩⟩
  · unfold viralContentCount
    rw [h]
    rfl
  · unfold avgViralityText
    rw [havg]
    exact toFixed1_zero

/-- C12 at the empty collection and at a search text that matches no record. -/
theorem summary_of_empty_witness :
    filteredTrends basicTables [recA] defaultFilters "zzz" = [] ∧
      viralContentCount basicTables [recA] defaultFilters "zzz" = 0 ∧
      avgVirality basicTables [recA] defaultFilters "zzz" = JsNumber.finite 0 ∧
      avgViralityText basicTables [recA] defaultFilters "zzz" = "0.0" ∧
      statsCard basicTables [recA] defaultFilters "zzz" =
        some { totalTrends := 1, viralContent := 0, avgVirality := "0.0", topics := 1 } := by
  have hft : filteredTrends basicTables [recA] defaultFilters "zzz" = [] := by decide!
  have hs := summary_of_empty basicTables [recA] defaultFilters "zzz" hft
  refine ⟨hft, hs.1, hs.2.1, hs.2.2.1, ?_⟩
  have htopics : getUniqueTopics [recA] = ["technology"] := by decide
  simp [statsCard, hs.1, hs.2.2.1, htopics]

/-! ## The two virality bandings (C13) -/

theorem bandOfColor_getViralityColor (v : ℚ) :
    bandOfColor (getViralityColor v) =
      some (if 80 ≤ v then Band.green else if 60 ≤ v then Band.yellow else Band.gray) := by
  unfold getViralityColor
  by_cases h₁ : 80 ≤ v
  · rw [if_pos h₁, if_pos h₁]
    decide
  · by_cases h₂ : 60 ≤ v
    · rw [if_neg h₁, if_pos h₂, if_neg h₁, if_pos h₂]
      decide
    · rw [if_neg h₁, if_neg h₂, if_neg h₁, if_neg h₂]
      decide

theorem bandOfDot_viralityDot (v : ℚ) :
    bandOfDot (viralityDot v) =
      some (if 80 < v then Band.green else if 60 < v then Band.yellow else Band.gray) := by
  unfold viralityDot
  by_cases h₁ : 80 < v
  · rw [if_pos h₁, if_pos h₁]
    decide
  · by_cases h₂ : 60 < v
    · rw [if_neg h₁, if_pos h₂, if_neg h₁, if_pos h₂]
      decide
    · rw [if_neg h₁, if_neg h₂, if_neg h₁, if_neg h₂]
      decide

/-- C13: for every virality score other than exactly 60 and exactly 80,
`getViralityColor` of the Trends page and the indicator dot of the Dashboard
assign the same band (green, yellow or gray); at exactly 80 Trends assigns green
and the Dashboard yellow, at exactly 60 Trends assigns yellow and the Dashboard
gray. -/
theorem virality_bands_agree (v : ℚ) (h60 : v ≠ 60) (h80 : v ≠ 80) :
    bandOfColor (getViralityColor v) = bandOfDot (viralityDot v) ∧
      bandOfDot (viralityDot v) =
        some (if 80 < v then Band.green else if 60 < v then Band.yellow else Band.gray) ∧
      (bandOfColor (getViralityColor 80) = some Band.green ∧
        bandOfDot (viralityDot 80) = some Band.yellow) ∧
      (bandOfColor (getViralityColor 60) = some Band.yellow ∧
        bandOfDot (viralityDot 60) = some Band.gray) := by
  refine ⟨?_, bandOfDot_viralityDot v, ⟨?_, ?_⟩, ⟨?_, ?_⟩⟩
  · rw [bandOfColor_getViralityColor, bandOfDot_viralityDot]
    have e₁ : 80 ≤ v ↔ 80 < v := ⟨fun h => lt_of_le_of_ne h (Ne.symm h80), le_of_lt⟩
    have e₂ : 60 ≤ v ↔ 60 < v := ⟨fun h => lt_of_le_of_ne h (Ne.symm h60), le_of_lt⟩
    simp only [e₁, e₂]
  · rw [bandOfColor_getViralityColor]
    norm_num
  · rw [bandOfDot_viralityDot]
    norm_num
  · rw [bandOfColor_getViralityColor]
    norm_num
  · rw [bandOfDot_viralityDot]
    norm_num

/-- C13 at the score 70, which both pages show as yellow. -/
theorem virality_bands_agree_witness :
    (70 : ℚ) ≠ 60 ∧ (70 : ℚ) ≠ 80 ∧
      bandOfColor (getViralityColor 70) = bandOfDot (viralityDot 70) ∧
      bandOfDot (viralityDot 70) = some Band.yellow := by
  have h60 : (70 : ℚ) ≠ 60 := by norm_num
  have h80 : (70 : ℚ) ≠ 80 := by norm_num
  have h := virality_bands_agree 70 h60 h80
  refine ⟨h60, h80, h.1, ?_⟩
  rw [h.2.1]
  norm_num

/-! ## Unique topics (C14) -/

section FirstOccurrences

variable {α : Type} [DecidableEq α]

theorem foldl_newSet (l acc : List α) :
    l.foldl (fun acc x => if x ∈ acc then acc else acc ++ [x]) acc =
      acc ++ (firstOccurrences l).filter (fun y => decide (y ∉ acc)) := by
  induction l generalizing acc with
  | nil => simp [firstOccurrences]
  | cons x l ih =>
    rw [List.foldl_cons, ih, firstOccurrences]
    by_cases hx : x ∈ acc
    · rw [if_pos hx, List.filter_cons_of_neg (by simpa using hx), List.filter_filter]
      congr 1
      apply List.filter_congr
      intro y _
      by_cases hy : y ∈ acc
      · simp [hy]
      · have hyx : y ≠ x := fun e => hy (e ▸ hx)
        simp [hy, hyx]
    · rw [if_neg hx, List.filter_cons_of_pos (by simpa using hx), List.filter_filter,
        List.append_assoc, List.singleton_append]
      congr 2
      apply List.filter_congr
      intro y _
      by_cases hy : y ∈ acc <;> by_cases hyx : y = x <;> simp [hy, hyx]

theorem newSet_eq_firstOccurrences (l : List α) : newSet l = firstOccurrences l := by
  unfold newSet
  rw [foldl_newSet]
  simp

theorem mem_firstOccurrences (l : List α) (y : α) : y ∈ firstOccurrences l ↔ y ∈ l := by
  induction l with
  | nil => simp [firstOccurrences]
  | cons x l ih =>
    rw [firstOccurrences, List.mem_cons, List.mem_cons, List.mem_filter, ih]
    by_cases hyx : y = x <;> simp [hyx]

theorem nodup_firstOccurrences (l : List α) : (firstOccurrences l).Nodup := by
  induction l with
  | nil => simp [firstOccurrences]
  | cons x l ih =>
    rw [firstOccurrences, List.nodup_cons]
    exact ⟨by simp [List.mem_filter], ih.filter _⟩

theorem pairwise_firstIndex_firstOccurrences (l : List α) :
    (firstOccurrences l).Pairwise (fun a b => firstIndex a l < firstIndex b l) := by
  induction l with
  | nil => simp [firstOccurrences]
  | cons x l ih =>
    rw [firstOccurrences, List.pairwise_cons]
    constructor
    · intro b hb
      have hbx : b ≠ x := by simpa using (List.mem_filter.1 hb).2
      rw [firstIndex, if_pos rfl, firstIndex, if_neg (Ne.symm hbx)]
      exact Nat.succ_pos _
    · refine (ih.filter _).imp_of_mem ?_
      intro a b ha hb hab
      have hax : a ≠ x := by simpa using (List.mem_filter.1 ha).2
      have hbx : b ≠ x := by simpa using (List.mem_filter.1 hb).2
      rw [firstIndex, if_neg (Ne.symm hax), firstIndex, if_neg (Ne.symm hbx)]
      exact Nat.succ_lt_succ hab

end FirstOccurrences

theorem truthyTopic_eq_some (o : Option String) (s : String) :
    truthyTopic o = some s ↔ o = some s ∧ s ≠ "" := by
  cases o with
  | none => simp [truthyTopic]
  | some t =>
    by_cases ht : t = ""
    · subst ht
      simp [truthyTopic]
      intro h
      exact h.symm
    · simp only [truthyTopic, if_neg ht, Option.some.injEq]
      constructor
      · intro h
        exact ⟨h, h ▸ ht⟩
      · intro h
        exact h.1

theorem getUniqueTopics_eq (trends : List Trend) :
    getUniqueTopics trends =
      (firstOccurrences (trends.map (fun trend => trend.topic_cluster))).filterMap
        truthyTopic := by
  unfold getUniqueTopics
  rw [newSet_eq_firstOccurrences]

theorem mem_getUniqueTopics (trends : List Trend) (s : String) :
    s ∈ getUniqueTopics trends ↔
      s ≠ "" ∧ ∃ t ∈ trends, t.topic_cluster = some s := by
  rw [getUniqueTopics_eq, List.mem_filterMap]
  constructor
  · rintro ⟨o, ho, hs⟩
    rw [truthyTopic_eq_some] at hs
    rw [mem_firstOccurrences, List.mem_map] at ho
    obtain ⟨t, ht, hto⟩ := ho
    exact ⟨hs.2, t, ht, hto.trans hs.1⟩
  · rintro ⟨hs, t, ht, hto⟩
    refine ⟨some s, ?_, (truthyTopic_eq_some _ _).2 ⟨rfl, hs⟩⟩
    rw [mem_firstOccurrences, List.mem_map]
    exact ⟨t, ht, hto⟩

/-- C14: `getUniqueTopics` returns a list without duplicates and without the
empty topic (a missing topic cannot occur in it); it contains exactly the
non-empty `topic_cluster` values of the records; its entries are in the order of
their first occurrence among the records; and for every topic it offers,
filtering by that topic with the empty search text yields at least one record. -/
theorem getUniqueTopics_spec (T : CaseTables) (trends : List Trend) (filters : Filters) :
    (getUniqueTopics trends).Nodup ∧
      "" ∉ getUniqueTopics trends ∧
      (∀ s, s ∈ getUniqueTopics trends ↔
        s ≠ "" ∧ ∃ t ∈ trends, t.topic_cluster = some s) ∧
      (getUniqueTopics trends).Pairwise
        (fun a b =>
          firstIndex (some a) (trends.map (fun trend => trend.topic_cluster)) <
            firstIndex (some b) (trends.map (fun trend => trend.topic_cluster))) ∧
      (∀ s ∈ getUniqueTopics trends,
        filteredTrends T trends { filters with topic := s } "" ≠ []) := by
  refine ⟨?_, ?_, mem_getUniqueTopics trends, ?_, ?_⟩
  · rw [getUniqueTopics_eq]
    refine (nodup_firstOccurrences _).filterMap ?_
    intro a b s ha hb
    rw [Option.mem_def, truthyTopic_eq_some] at ha hb
    rw [ha.1, hb.1]
  · intro h
    exact ((mem_getUniqueTopics trends "").1 h).1 rfl
  · rw [getUniqueTopics_eq, List.pairwise_filterMap]
    refine (pairwise_firstIndex_firstOccurrences _).imp ?_
    intro a b hab s hs r hr
    rw [Option.mem_def, truthyTopic_eq_some] at hs hr
    rw [← hs.1, ← hr.1]
    exact hab
  · intro s hs
    obtain ⟨_, t, ht, hts⟩ := (mem_getUniqueTopics trends s).1 hs
    have hmem : t ∈ filteredTrends T trends { filters with topic := s } "" := by
      rw [mem_filteredTrends]
      exact ⟨ht, matchesSearch_empty T t, by simp [matchesTopicFilter, hts]⟩
    exact List.ne_nil_of_mem hmem

/-- C14 at six sample records, two of them without a usable topic. -/
theorem getUniqueTopics_spec_witness :
    getUniqueTopics [recB, recF, recA, recG, recC, recB] = ["science", "technology"] ∧
      (getUniqueTopics [recB, recF, recA, recG, recC, recB]).Nodup ∧
      "science" ∈ getUniqueTopics [recB, recF, recA, recG, recC, recB] ∧
      filteredTrends basicTables [recB, recF, recA, recG, recC, recB]
        { defaultFilters with topic := "science" } "" ≠ [] := by
  have hval : getUniqueTopics [recB, recF, recA, recG, recC, recB] =
      ["science", "technology"] := by decide
  have hmem : "science" ∈ getUniqueTopics [recB, recF, recA, recG, recC, recB] := by
    rw [hval]
    exact List.mem_cons_self _ _
  have h := getUniqueTopics_spec basicTables [recB, recF, recA, recG, recC, recB]
    defaultFilters
  exact ⟨hval, h.1, hmem, h.2.2.2.2 "science" hmem⟩

end SignalScout
